import Mathlib

/-!
Verification of the backend-connection core of the codis proxy: the RESP
decoder (`pkg/proxy/redis/decoder.go`), the buffered reader
(`pkg/utils/bufio2`), the backend connection state machine and shared pool
(`pkg/proxy/backend.go`), and the off-heap slice allocator
(`pkg/utils/unsafe2`).  Byte strings are modelled as lists of natural
numbers (byte values); machine integers as `Int`/`Nat`; fallible code
returns `Option`/`Except`.
-/

namespace Codis

/-- Byte strings: lists of byte values. -/
abbrev Bytes := List Nat

/-- ASCII decimal digit test, `b[i] >= '0' && b[i] <= '9'` in the source. -/
def isDigitB (c : Nat) : Bool := decide (48 ≤ c ∧ c ≤ 57)

/-- Modelled from the spec: the Go standard-library call
`strconv.ParseInt(string(b), 10, 64)` that `Btoi64` falls back to and that
the spec compares `Btoi64` against.  An optional leading sign followed by a
nonempty run of decimal digits parses to a signed 64-bit value; anything
else, or a value outside the `int64` range, is an error (`none`). -/
def parseIntGo (b : Bytes) : Option Int :=
  if b = [] then none
  else
    let neg : Bool := b.head? == some 45
    let ds : Bytes := if b.head? == some 45 || b.head? == some 43 then b.drop 1 else b
    if ds = [] then none
    else if ds.all isDigitB then
      let un : Nat := ds.foldl (fun (x : Nat) (d : Nat) => x * 10 + (d - 48)) 0
      if neg then (if un ≤ 2 ^ 63 then some (-(un : Int)) else none)
      else (if un < 2 ^ 63 then some (un : Int) else none)
    else none

/-- Fast path of `Btoi64` (decoder.go lines 35-56): inputs of one to nine
bytes, an optional `'-'`/`'+'` sign (byte 45/43) followed by digits, are
parsed inline; the accumulator is `n = int64(b[i]-'0') + n*10`.  The loop
stops at the first non-digit, and the value is returned only when the whole
input was consumed. -/
def btoi64Fast (b : Bytes) : Option Int :=
  if b.length = 0 ∨ 10 ≤ b.length then none
  else
    let neg : Bool := b.head? == some 45
    let i : Nat := if b.head? == some 45 || b.head? == some 43 then 1 else 0
    let ds : Bytes := b.drop i
    if ds = [] then none
    else if ds.all isDigitB then
      let n : Int := ds.foldl (fun (x : Int) (d : Nat) => (d : Int) - 48 + x * 10) 0
      some (if neg then -n else n)
    else none

/-- `Btoi64` (decoder.go): the inline fast path, falling back to
`strconv.ParseInt` when the fast path does not produce a value. -/
def Btoi64 (b : Bytes) : Option Int :=
  match btoi64Fast b with
  | some n => some n
  | none => parseIntGo b

/-- Errors of the decoding pipeline (decoder.go).  `ioError` stands for any
error surfaced by the underlying reader (EOF and friends), `outOfFuel` for
exhaustion of the recursion bound of the shallow embedding, `parseIntError`
for a failed `strconv.ParseInt` inside `Btoi64`. -/
inductive DErr
  | ioError
  | outOfFuel
  | badCRLFEnd
  | badArrayLen
  | badArrayLenTooLong
  | badBulkBytesLen
  | badBulkBytesLenTooLong
  | badMultiBulkLen
  | badMultiBulkContent
  | badRespType (b : Nat)
  | parseIntError
  | failedDecoder
  deriving DecidableEq, Repr

/-- Decoded RESP frame (resp.go): simple string, error, integer (raw bytes),
bulk bytes (nullable) and array (nullable). -/
inductive Resp
  | str (v : Bytes)
  | err (v : Bytes)
  | int (v : Bytes)
  | bulk (v : Option Bytes)
  | array (v : Option (List Resp))

/-- Stream model of `ReadBytes('\n')` / `ReadSlice('\n')` on an unbounded
input: the bytes up to and including the first `'\n'` (byte 10), and the
remaining stream; `none` when the stream has no newline (the underlying
reader errors). -/
def splitAtNL : Bytes → Option (Bytes × Bytes)
  | [] => none
  | c :: rest =>
    if c = 10 then some ([10], rest)
    else
      match splitAtNL rest with
      | some p => some (c :: p.1, p.2)
      | none => none

/-- `decodeTextBytes` (decoder.go): read a line, check the `"\r\n"` ending,
return the line without the two terminator bytes. -/
def decodeTextBytes (s : Bytes) : Except DErr (Bytes × Bytes) :=
  match splitAtNL s with
  | none => .error .ioError
  | some (b, rest) =>
    if b.length < 2 then .error .badCRLFEnd
    else if b[b.length - 2]? ≠ some 13 then .error .badCRLFEnd
    else .ok (b.take (b.length - 2), rest)

/-- `decodeInt` (decoder.go): read a line via `ReadSlice`, check the CRLF
ending, parse the length with `Btoi64`. -/
def decodeInt (s : Bytes) : Except DErr (Int × Bytes) :=
  match splitAtNL s with
  | none => .error .ioError
  | some (b, rest) =>
    if b.length < 2 then .error .badCRLFEnd
    else if b[b.length - 2]? ≠ some 13 then .error .badCRLFEnd
    else
      match Btoi64 (b.take (b.length - 2)) with
      | some n => .ok (n, rest)
      | none => .error .parseIntError

/-- `MaxBulkBytesLen` (decoder.go line 29). -/
def maxBulkBytesLen : Int := 1024 * 1024 * 512

/-- `MaxArrayLen` (decoder.go line 30). -/
def maxArrayLen : Int := 1024 * 1024

/-- `decodeBulkBytes` (decoder.go lines 176-197): parse the length `n`; a
length below `-1` or above `MaxBulkBytesLen` is an error, `-1` is the null
bulk, otherwise `ReadFull(n+2)` and check the trailing CRLF. -/
def decodeBulkBytes (s : Bytes) : Except DErr (Option Bytes × Bytes) :=
  match decodeInt s with
  | .error e => .error e
  | .ok (n, rest) =>
    if n < -1 then .error .badBulkBytesLen
    else if n > maxBulkBytesLen then .error .badBulkBytesLenTooLong
    else if n = -1 then .ok (none, rest)
    else
      if rest.length < n.toNat + 2 then .error .ioError
      else
        let b := rest.take (n.toNat + 2)
        if b[n.toNat]? ≠ some 13 ∨ b[n.toNat + 1]? ≠ some 10 then .error .badCRLFEnd
        else .ok (some (b.take n.toNat), rest.drop (n.toNat + 2))

mutual

/-- `decodeResp` (decoder.go lines 129-147): dispatch on the type byte
(`'+'`=43, `'-'`=45, `':'`=58, `'$'`=36, `'*'`=42).  The `Nat` argument
bounds the recursion depth of the embedding; each recursive call consumes
one unit, so any value larger than the nesting of the input behaves as the
unbounded source. -/
def decodeResp : Nat → Bytes → Except DErr (Resp × Bytes)
  | 0, _ => .error .outOfFuel
  | _ + 1, [] => .error .ioError
  | fuel + 1, b :: rest =>
    if b = 43 then
      match decodeTextBytes rest with
      | .error e => .error e
      | .ok (v, r) => .ok (.str v, r)
    else if b = 45 then
      match decodeTextBytes rest with
      | .error e => .error e
      | .ok (v, r) => .ok (.err v, r)
    else if b = 58 then
      match decodeTextBytes rest with
      | .error e => .error e
      | .ok (v, r) => .ok (.int v, r)
    else if b = 36 then
      match decodeBulkBytes rest with
      | .error e => .error e
      | .ok (v, r) => .ok (.bulk v, r)
    else if b = 42 then
      match decodeArray fuel rest with
      | .error e => .error e
      | .ok (v, r) => .ok (.array v, r)
    else .error (.badRespType b)

/-- `decodeArray` (decoder.go lines 199-221): parse the count `n`; below
`-1` or above `MaxArrayLen` is an error, `-1` the null array, otherwise
decode `n` elements. -/
def decodeArray : Nat → Bytes → Except DErr (Option (List Resp) × Bytes)
  | 0, _ => .error .outOfFuel
  | fuel + 1, s =>
    match decodeInt s with
    | .error e => .error e
    | .ok (n, rest) =>
      if n < -1 then .error .badArrayLen
      else if n > maxArrayLen then .error .badArrayLenTooLong
      else if n = -1 then .ok (none, rest)
      else
        match decodeArrayElems fuel n.toNat rest with
        | .error e => .error e
        | .ok (rs, r) => .ok (some rs, r)

/-- Element loop of `decodeArray`: decode `n` frames in sequence. -/
def decodeArrayElems : Nat → Nat → Bytes → Except DErr (List Resp × Bytes)
  | 0, _, _ => .error .outOfFuel
  | _ + 1, 0, s => .ok ([], s)
  | fuel + 1, n + 1, s =>
    match decodeResp fuel s with
    | .error e => .error e
    | .ok (r, rest) =>
      match decodeArrayElems fuel n rest with
      | .error e => .error e
      | .ok (rs, r2) => .ok (r :: rs, r2)

end

/-- Token-splitting loop of `decodeSingleLineMultiBulk` (decoder.go lines
230-237): scan positions `r = 0 .. len(b)`, cutting a token `b[l:r]` at
each space (byte 32) or at the end when `l < r`.  The first `Nat` argument
is the remaining trip count of the loop (`goTokens` starts it at
`len(b) + 1`, exactly the number of iterations of the source loop). -/
def goTokensLoop (b : Bytes) : Nat → Nat → Nat → List Bytes
  | 0, _, _ => []
  | k + 1, l, r =>
    if r = b.length ∨ b[r]? = some 32 then
      (if l < r then [(b.drop l).take (r - l)] else []) ++ goTokensLoop b k (r + 1) (r + 1)
    else goTokensLoop b k l (r + 1)

/-- Tokens of an inline command line: the source loop started at `l = r = 0`. -/
def goTokens (b : Bytes) : List Bytes := goTokensLoop b (b.length + 1) 0 0

/-- `decodeSingleLineMultiBulk` (decoder.go lines 224-242): read one
CRLF-terminated line, split it on spaces into bulk values; an empty result
is the `bad multi-bulk len` error. -/
def decodeSingleLineMultiBulk (s : Bytes) : Except DErr (List Resp × Bytes) :=
  match decodeTextBytes s with
  | .error e => .error e
  | .ok (b, rest) =>
    let multi := (goTokens b).map (fun t => Resp.bulk (some t))
    if multi.length = 0 then .error .badMultiBulkLen
    else .ok (multi, rest)

/-- Element loop of `decodeMultiBulk`: decode `n` frames, each of which must
be a bulk (`bad multi-bulk content` otherwise). -/
def decodeMultiBulkElems : Nat → Nat → Bytes → Except DErr (List Resp × Bytes)
  | 0, _, _ => .error .outOfFuel
  | _ + 1, 0, s => .ok ([], s)
  | fuel + 1, n + 1, s =>
    match decodeResp fuel s with
    | .error e => .error e
    | .ok (.bulk v, rest) =>
      match decodeMultiBulkElems fuel n rest with
      | .error e => .error e
      | .ok (rs, r2) => .ok (.bulk v :: rs, r2)
    | .ok _ => .error .badMultiBulkContent

/-- `decodeMultiBulk` (decoder.go lines 245-278): peek the first byte; if it
is not `'*'` fall back to inline parsing of the whole stream, otherwise
consume the `'*'`, parse the count, reject `n <= 0` with `bad array len`
and `n > MaxArrayLen` with `bad array len, too long`, then decode `n`
bulk elements. -/
def decodeMultiBulk (fuel : Nat) (s : Bytes) : Except DErr (List Resp × Bytes) :=
  match s with
  | [] => .error .ioError
  | b :: rest =>
    if b ≠ 42 then decodeSingleLineMultiBulk (b :: rest)
    else
      match decodeInt rest with
      | .error e => .error e
      | .ok (n, r) =>
        if n ≤ 0 then .error .badArrayLen
        else if n > maxArrayLen then .error .badArrayLenTooLong
        else decodeMultiBulkElems fuel n.toNat r

/-- Decoder state (decoder.go lines 65-69): a sticky error and the remaining
input stream of the buffered reader. -/
structure Decoder where
  err : Option DErr
  input : Bytes

/-- `Decoder.Decode` (decoder.go lines 87-96): refuse with
`use of failed decoder` when the sticky error is set; otherwise run
`decodeResp`, recording a failure in the sticky field. -/
def Decoder.decode (fuel : Nat) (d : Decoder) : Except DErr Resp × Decoder :=
  match d.err with
  | some _ => (.error .failedDecoder, d)
  | none =>
    match decodeResp fuel d.input with
    | .ok (r, rest) => (.ok r, { err := none, input := rest })
    | .error e => (.error e, { d with err := some e })

/-- `Decoder.DecodeMultiBulk` (decoder.go lines 99-108): same sticky-error
discipline around `decodeMultiBulk`. -/
def Decoder.decodeMB (fuel : Nat) (d : Decoder) : Except DErr (List Resp) × Decoder :=
  match d.err with
  | some _ => (.error .failedDecoder, d)
  | none =>
    match decodeMultiBulk fuel d.input with
    | .ok (m, rest) => (.ok m, { err := none, input := rest })
    | .error e => (.error e, { d with err := some e })

/-- Errors of the buffered reader (`bufio2`): `io.EOF`, `io.ErrNoProgress`
(a zero-byte read without error) and `bufio.ErrBufferFull`. -/
inductive RErr
  | eof
  | noProgress
  | bufferFull
  deriving DecidableEq, Repr

/-- State of `bufio2.Reader` (reader part of bufio.go): `data` is
`buf[0:wpos]`, the written prefix of a fixed buffer of capacity `cap`
(`wpos = data.length`); `rpos ≤ wpos` is the read cursor; `src` holds the
bytes the underlying reader has not yet delivered; `err` is the sticky
error.  The underlying `rd.Read` is modelled deterministically as a
`bytes.Reader`: it delivers `min(space, len(src))` bytes, or EOF on an
exhausted source. -/
structure RState where
  err : Option RErr
  cap : Nat
  data : Bytes
  rpos : Nat
  src : Bytes
  deriving DecidableEq, Repr

/-- `Reader.fill` (bufio.go lines 48-67): compact `buf[rpos:wpos]` to the
front, then issue exactly one read into the free space; an exhausted source
yields the sticky EOF, a zero-byte read with no error becomes the sticky
`io.ErrNoProgress`. -/
def RState.fill (b : RState) : RState :=
  match b.err with
  | some _ => b
  | none =>
    let d := b.data.drop b.rpos
    let space := b.cap - d.length
    if b.src.isEmpty then { b with data := d, rpos := 0, err := some .eof }
    else if space = 0 then { b with data := d, rpos := 0, err := some .noProgress }
    else { b with data := d ++ b.src.take space, rpos := 0, src := b.src.drop space }

/-- `bytes.IndexByte`: index of the first occurrence of a byte. -/
def firstIdx (delim : Nat) : Bytes → Option Nat
  | [] => none
  | c :: rest =>
    if c = delim then some 0
    else (firstIdx delim rest).map (· + 1)

/-- Loop of `Reader.ReadSlice` (bufio.go lines 129-152): search
`buf[rpos:wpos]` for the delimiter and return through it on a hit; when the
buffer is completely full without a hit, discard the buffered bytes
(`rpos = wpos`) and return the full buffer with `bufio.ErrBufferFull`
(whose `err` stays clear — `BufferFull` is not sticky); otherwise fill and
retry.  The `Nat` argument is a trip bound: `readSlice` passes
`len(src) + 1`, which is never exhausted because every retry consumes at
least one source byte. -/
def readSliceLoop (delim : Nat) : Nat → RState → RState × Bytes × Option RErr
  | 0, b => (b, [], b.err)
  | k + 1, b =>
    match firstIdx delim (b.data.drop b.rpos) with
    | some i =>
      ({ b with rpos := b.rpos + i + 1 }, (b.data.drop b.rpos).take (i + 1), none)
    | none =>
      if b.data.length - b.rpos = b.cap then
        ({ b with rpos := b.data.length }, b.data, some .bufferFull)
      else
        match (b.fill).err with
        | some e => (b.fill, [], some e)
        | none => readSliceLoop delim k b.fill

/-- `Reader.ReadSlice` (bufio.go): sticky-error check, then the search loop. -/
def RState.readSlice (b : RState) (delim : Nat) : RState × Bytes × Option RErr :=
  match b.err with
  | some e => (b, [], some e)
  | none => readSliceLoop delim (b.src.length + 1) b

/-- Reader-state well-formedness: cursors in bounds, nonempty buffer
(`NewReaderSize` forces a positive size). -/
def RState.WF (b : RState) : Prop :=
  b.rpos ≤ b.data.length ∧ b.data.length ≤ b.cap ∧ 0 < b.cap


/-- Bytes of an ASCII string literal. -/
def strBytes (s : String) : Bytes := s.data.map Char.toNat

/-- Backend connection health states (backend.go lines 22-25):
`stateConnected = 1`, `stateDataStale = 2`, `0` disconnected. -/
def stateConnected : Int := 1

/-- See `stateConnected`. -/
def stateDataStale : Int := 2

/-- `atomic2.Int64.CompareAndSwap`: move to `new` exactly when the current
value equals `old`. -/
def casState (cur old new : Int) : Int := if cur = old then new else cur

/-- `errRespMasterDown` (backend.go line 285). -/
def errRespMasterDown : Bytes := strBytes "MASTERDOWN"

/-- `errRespLoading` (backend.go line 286). -/
def errRespLoading : Bytes := strBytes "LOADING"

/-- Completion errors a worker can assign to a request (backend.go). -/
inductive BErr
  | backendConnReset
  | requestIsBroken
  | backendConnFailure
  deriving DecidableEq, Repr

/-- One iteration of `BackendConn.loopReader` (backend.go lines 299-321)
after a successful decode: an error-typed reply whose payload begins with
`MASTERDOWN` (checked first) or `LOADING` compare-and-swaps
`Connected → DataStale`; the request is then completed with the reply
itself and a nil error. -/
def loopReaderStep (st : Int) (resp : Resp) : Int × (Option Resp × Option BErr) :=
  let st2 :=
    match resp with
    | .err v =>
      if errRespMasterDown.isPrefixOf v then casState st stateConnected stateDataStale
      else if errRespLoading.isPrefixOf v then casState st stateConnected stateDataStale
      else st
    | _ => st
  (st2, (some resp, none))

/-- `strings.Split(s, "\n")` over bytes. -/
def splitLines : Bytes → List Bytes
  | [] => [[]]
  | c :: rest =>
    if c = 10 then [] :: splitLines rest
    else
      match splitLines rest with
      | l :: ls => (c :: l) :: ls
      | [] => [[c]]

/-- `strings.SplitN(line, ":", 2)`: the pieces before and after the first
`':'` (byte 58); `none` when there is no colon (the source skips such a
line, `len(kv) != 2`). -/
def splitFirstColon : Bytes → Option (Bytes × Bytes)
  | [] => none
  | c :: rest =>
    if c = 58 then some ([], rest)
    else
      match splitFirstColon rest with
      | some p => some (c :: p.1, p.2)
      | none => none

/-- ASCII whitespace, the `asciiSpace` set of `strings.TrimSpace`. -/
def isSpaceB (c : Nat) : Bool :=
  c = 32 || c = 9 || c = 10 || c = 11 || c = 12 || c = 13

/-- `strings.TrimSpace` restricted to ASCII content. -/
def trimSpace (b : Bytes) : Bytes :=
  ((b.dropWhile isSpaceB).reverse.dropWhile isSpaceB).reverse

/-- Key/value pairs of an `INFO` reply as parsed by the keepalive callback
(backend.go lines 117-126): split into lines, split each at the first
colon, trim both sides, skip lines without a colon or with an empty key. -/
def infoPairs (v : Bytes) : List (Bytes × Bytes) :=
  (splitLines v).filterMap (fun line =>
    match splitFirstColon line with
    | none => none
    | some (k, val) =>
      let k2 := trimSpace k
      if k2 = [] then none else some (k2, trimSpace val))

/-- Go map lookup `info[key]`: the last write wins, a missing key reads as
the empty string. -/
def infoGet (v : Bytes) (k : Bytes) : Bytes :=
  (((infoPairs v).reverse.find? (fun p => p.1 == k)).map Prod.snd).getD []

/-- The `INFO` keepalive callback (backend.go lines 105-146) acting on the
state: with a nil request error and a bulk reply, recover
`DataStale → Connected` (by CAS) exactly when the parsed info map has
neither `master_link_status: down` nor `loading: 1`; any other reply shape
(request error, missing reply, error reply, wrong type) leaves the state
alone. -/
def keepAliveInfoStep (st : Int) (merr : Option BErr) (resp : Option Resp) : Int :=
  match merr with
  | some _ => st
  | none =>
    match resp with
    | none => st
    | some (.err _) => st
    | some (.bulk v) =>
      if infoGet (v.getD []) (strBytes "master_link_status") = strBytes "down" then st
      else if infoGet (v.getD []) (strBytes "loading") = strBytes "1" then st
      else casState st stateDataStale stateConnected
    | some _ => st


/-- Round-robin probe of `sharedBackendConn.BackendConn` (backend.go lines
502-508): starting from `i = seed`, advance `i = (i+1) mod N` at most `N`
times (`for range parallel`), returning the index of the first worker in
state `Connected`. -/
def probeLoop (ws : List Int) (i : Nat) : Nat → Option Nat
  | 0 => none
  | k + 1 =>
    let j := (i + 1) % ws.length
    if ws.getD j 0 == stateConnected then some j else probeLoop ws j k

/-- `sharedBackendConn.BackendConn` (backend.go lines 487-513) for a
non-nil shared conn, returning the index of the chosen worker inside
`conns[db]` (`none` is Go `nil`).  `single` is non-nil exactly when
`parallel == 1`, and then `single[db] = conns[db][0]`, i.e. index 0; worker
states are carried as integers (`1 = Connected`). -/
def sbcSelect (single : Option (List Int)) (conns : List (List Int))
    (db seed : Nat) (must : Bool) : Option Nat :=
  match single with
  | some sgl => if must || (sgl.getD db 0 == stateConnected) then some 0 else none
  | none =>
    match probeLoop (conns.getD db []) seed (conns.getD db []).length with
    | some j => some j
    | none => if must then some 0 else none


/-- Shared backend connection as the pool accounts for it: the reference
count and the number of owned `BackendConn` workers
(`BackendNumberDatabases × parallel`, all dialed eagerly). -/
structure SConn where
  refcnt : Int
  workers : Nat
  deriving DecidableEq, Repr

/-- The pool map `map[string]*sharedBackendConn`, as an association list
with unique keys. -/
abbrev Pool := List (String × SConn)

/-- Map read `p.pool[addr]`. -/
def poolGet : Pool → String → Option SConn
  | [], _ => none
  | (a, c) :: rest, addr => if a = addr then some c else poolGet rest addr

/-- Map write `p.pool[addr] = c` (replace in place, else append). -/
def poolSet : Pool → String → SConn → Pool
  | [], addr, c => [(addr, c)]
  | (a, d) :: rest, addr, c =>
    if a = addr then (addr, c) :: rest else (a, d) :: poolSet rest addr c

/-- `delete(p.pool, addr)`. -/
def poolDel : Pool → String → Pool
  | [], _ => []
  | (a, d) :: rest, addr =>
    if a = addr then poolDel rest addr else (a, d) :: poolDel rest addr

/-- `sharedBackendConnPool.Retain` (backend.go lines 543-553) with
`sharedBackendConn.Retain` (lines 464-474) and `newSharedBackendConn`
(lines 407-433): a present address has its refcount incremented — a panic
(`none`) when the count is already ≤ 0 — and an absent address gets a
fresh conn with refcount 1 and `databases × parallel` workers. -/
def poolRetain (databases parallel : Nat) (p : Pool) (addr : String) : Option Pool :=
  match poolGet p addr with
  | some c =>
    if c.refcnt ≤ 0 then none
    else some (poolSet p addr { c with refcnt := c.refcnt + 1 })
  | none => some (poolSet p addr ⟨1, databases * parallel⟩)

/-- `sharedBackendConn.Release` (backend.go lines 443-461): a nil receiver
(absent address) returns at once; a refcount ≤ 0 panics (`none`);
otherwise decrement, and exactly at zero close every owned worker (the
returned `Nat` counts the `Close` calls) and delete the map entry. -/
def poolRelease (p : Pool) (addr : String) : Option (Pool × Nat) :=
  match poolGet p addr with
  | none => some (p, 0)
  | some c =>
    if c.refcnt ≤ 0 then none
    else if c.refcnt - 1 ≠ 0 then
      some (poolSet p addr { c with refcnt := c.refcnt - 1 }, 0)
    else some (poolDel p addr, c.workers)

/-- Iterated `Retain` on one address. -/
def retainN (databases parallel : Nat) (addr : String) : Nat → Pool → Option Pool
  | 0, p => some p
  | k + 1, p =>
    match poolRetain databases parallel p addr with
    | none => none
    | some p2 => retainN databases parallel addr k p2

/-- Iterated `Release` on one address. -/
def releaseN (addr : String) : Nat → Pool → Option Pool
  | 0, p => some p
  | k + 1, p =>
    match poolRelease p addr with
    | none => none
    | some pr => releaseN addr k pr.1

/-- `cgoSlice` (cgo_slice.go): `ptr` records whether the C pointer is still
set, `buf` is the Go-visible byte slice. -/
structure CgoSlice where
  ptr : Bool
  buf : Bytes
  deriving DecidableEq, Repr

/-- A `cgoSlice` with the global state it touches: the off-heap byte
counter `allocOffheapBytes` and a count of `cgo_free` calls. -/
structure CgoState where
  s : CgoSlice
  offheapBytes : Int
  frees : Nat
  deriving DecidableEq, Repr

/-- `cgoSlice.reclaim` (cgo_slice.go lines 113-122): a nil `ptr` returns at
once; otherwise `cgo_free` the region, subtract `len(buf)` from the global
counter, and nil out `ptr` and `buf`. -/
def reclaim (st : CgoState) : CgoState :=
  if st.s.ptr = false then st
  else
    { s := { ptr := false, buf := [] },
      offheapBytes := st.offheapBytes - st.s.buf.length,
      frees := st.frees + 1 }

/-- `FreeSlice` (unsafe2.go lines 51-55): explicit free calls `reclaim` on
a non-nil slice. -/
def freeSlice : Option CgoSlice → Int → Nat → Option CgoSlice × Int × Nat
  | none, off, fr => (none, off, fr)
  | some s, off, fr =>
    (some (reclaim ⟨s, off, fr⟩).s, (reclaim ⟨s, off, fr⟩).offheapBytes,
      (reclaim ⟨s, off, fr⟩).frees)

/-- `newCGoSlice` (cgo_slice.go lines 81-101), with `cgo_malloc` assumed to
succeed: add `n` to the counter first; without `force`, exceeding the cap
undoes the addition and yields nil. -/
def newCGoSlice (n : Nat) (maxOffheap off : Int) (force : Bool) :
    Option CgoSlice × Int :=
  if !force && off + n > maxOffheap then (none, off)
  else (some ⟨true, List.replicate n 0⟩, off + n)

/-- Iterated `reclaim`, covering any interleaving of explicit `FreeSlice`
calls and the finalizer firing. -/
def iterReclaim : Nat → CgoState → CgoState
  | 0, st => st
  | k + 1, st => iterReclaim k (reclaim st)

/-- Specification-side reading of the token loop: scan the line keeping an
accumulator for the current token; a space (byte 32) cuts the accumulated
token (dropping it when empty).  Used to relate `goTokensLoop` to
`List.splitOn`. -/
def wordsFrom : Bytes → Bytes → List Bytes
  | cur, [] => if cur = [] then [] else [cur]
  | cur, c :: rest =>
    if c = 32 then (if cur = [] then [] else [cur]) ++ wordsFrom [] rest
    else wordsFrom (cur ++ [c]) rest

theorem foldDigits_cast (ds : Bytes) (hd : ds.all isDigitB = true) (a : Nat) :
    List.foldl (fun (x : Int) (d : Nat) => (d : Int) - 48 + x * 10) (a : Int) ds =
      ((List.foldl (fun (x : Nat) (d : Nat) => x * 10 + (d - 48)) a ds : Nat) : Int) := by
  induction ds generalizing a with
  | nil => simp
  | cons c rest ih =>
    simp only [List.all_cons, Bool.and_eq_true] at hd
    have h48 : 48 ≤ c ∧ c ≤ 57 := by
      have := hd.1
      simpa [isDigitB] using this
    simp only [List.foldl_cons]
    have hc : ((c : Int) - 48 + (a : Int) * 10) = ((a * 10 + (c - 48) : Nat) : Int) := by
      omega
    rw [hc]
    exact ih hd.2 _

theorem foldDigits_lt (ds : Bytes) (hd : ds.all isDigitB = true) (a : Nat) :
    List.foldl (fun (x : Nat) (d : Nat) => x * 10 + (d - 48)) a ds < (a + 1) * 10 ^ ds.length := by
  induction ds generalizing a with
  | nil => simp
  | cons c rest ih =>
    simp only [List.all_cons, Bool.and_eq_true] at hd
    have h57 : c ≤ 57 := by
      have := hd.1
      simp [isDigitB] at this
      exact this.2
    simp only [List.foldl_cons, List.length_cons]
    have h1 : a * 10 + (c - 48) + 1 ≤ (a + 1) * 10 := by omega
    calc List.foldl (fun (x : Nat) (d : Nat) => x * 10 + (d - 48)) (a * 10 + (c - 48)) rest
        < (a * 10 + (c - 48) + 1) * 10 ^ rest.length := ih hd.2 _
      _ ≤ ((a + 1) * 10) * 10 ^ rest.length := Nat.mul_le_mul_right _ h1
      _ = (a + 1) * 10 ^ (rest.length + 1) := by ring

/-- C2: for every byte string of length at most 9 consisting of an optional
sign character (`'+'` or `'-'`) followed by decimal digits, `Btoi64` returns
the same result as `strconv.ParseInt(string(b), 10, 64)`; in particular the
inline fast path computes the identical signed integer. -/
theorem btoi64_agrees_parseInt (sgn ds : Bytes)
    (hs : sgn = [] ∨ sgn = [43] ∨ sgn = [45])
    (hd : ds.all isDigitB = true)
    (hlen : (sgn ++ ds).length ≤ 9) :
    Btoi64 (sgn ++ ds) = parseIntGo (sgn ++ ds) := by
  cases ds with
  | nil =>
    have hfast : btoi64Fast (sgn ++ []) = none := by
      rcases hs with h | h | h <;> subst h <;> simp [btoi64Fast]
    simp only [List.append_nil] at hfast ⊢
    simp [Btoi64, hfast]
  | cons c rest =>
    have hdc : isDigitB c = true ∧ rest.all isDigitB = true := by
      simpa [List.all_cons, Bool.and_eq_true] using hd
    have h48 : 48 ≤ c ∧ c ≤ 57 := by
      have := hdc.1
      simpa [isDigitB] using this
    have hfi : List.foldl (fun (x : Int) (d : Nat) => (d : Int) - 48 + x * 10) ((c : Int) - 48) rest
        = ((List.foldl (fun (x : Nat) (d : Nat) => x * 10 + (d - 48)) (c - 48) rest : Nat) : Int) := by
      have h := foldDigits_cast rest hdc.2 (c - 48)
      rwa [show (((c - 48 : Nat)) : Int) = (c : Int) - 48 by omega] at h
    have hfb : ∀ m : Nat, rest.length ≤ m →
        List.foldl (fun (x : Nat) (d : Nat) => x * 10 + (d - 48)) (c - 48) rest
          < 10 * 10 ^ m := by
      intro m hm
      have h1 := foldDigits_lt rest hdc.2 (c - 48)
      have hc9 : c - 48 + 1 ≤ 10 := by omega
      have hpow : (10 : Nat) ^ rest.length ≤ 10 ^ m := Nat.pow_le_pow_right (by omega) hm
      calc List.foldl (fun (x : Nat) (d : Nat) => x * 10 + (d - 48)) (c - 48) rest
          < (c - 48 + 1) * 10 ^ rest.length := h1
        _ ≤ 10 * 10 ^ rest.length := Nat.mul_le_mul_right _ hc9
        _ ≤ 10 * 10 ^ m := Nat.mul_le_mul_left _ hpow
    have hall : ∀ x ∈ c :: rest, isDigitB x = true := by
      simpa [List.all_eq_true] using hd
    have hrest : ∀ x ∈ rest, isDigitB x = true := fun x hx => hall x (List.mem_cons_of_mem _ hx)
    rcases hs with h | h | h <;> subst h
    · -- no sign: the first byte is a digit, hence not 43/45
      have hor : ¬(c = 45 ∨ c = 43) := by omega
      simp only [List.nil_append] at hlen ⊢
      have hrest8 : rest.length ≤ 8 := by
        simp only [List.length_cons] at hlen
        omega
      have h9 : ¬9 ≤ rest.length := by omega
      have hb63 : List.foldl (fun (x : Nat) (d : Nat) => x * 10 + (d - 48)) (c - 48) rest
          < 9223372036854775808 := lt_of_lt_of_le (hfb 8 hrest8) (by norm_num)
      have hlen10 : ¬((c :: rest).length = 0 ∨ 10 ≤ (c :: rest).length) := by
        simp only [List.length_cons] at hlen ⊢
        omega
      have h45 : ¬c = 45 := by omega
      have h43 : ¬c = 43 := by omega
      simp [Btoi64, btoi64Fast, parseIntGo, hor, hlen10, hall, hrest, h45, h43, h9, hfi, hb63]
      simp only [if_pos hrest]
    · -- '+' sign
      have hrest7 : rest.length ≤ 7 := by
        simp only [List.cons_append, List.nil_append, List.length_cons] at hlen
        omega
      have h8 : ¬8 ≤ rest.length := by omega
      have hb63 : List.foldl (fun (x : Nat) (d : Nat) => x * 10 + (d - 48)) (c - 48) rest
          < 9223372036854775808 := lt_of_lt_of_le (hfb 7 hrest7) (by norm_num)
      have hlen10 : ¬((43 :: c :: rest).length = 0 ∨ 10 ≤ (43 :: c :: rest).length) := by
        simp only [List.cons_append, List.nil_append, List.length_cons] at hlen ⊢
        omega
      simp only [List.cons_append, List.nil_append]
      simp only [Btoi64, btoi64Fast, parseIntGo, hlen10, List.head?_cons]
      simp [hall, hrest, h8, hfi, hb63]
      simp only [if_pos hrest]
    · -- '-' sign
      have hrest7 : rest.length ≤ 7 := by
        simp only [List.cons_append, List.nil_append, List.length_cons] at hlen
        omega
      have h8 : ¬8 ≤ rest.length := by omega
      have hb63 : List.foldl (fun (x : Nat) (d : Nat) => x * 10 + (d - 48)) (c - 48) rest
          ≤ 9223372036854775808 := le_of_lt (lt_of_lt_of_le (hfb 7 hrest7) (by norm_num))
      have hlen10 : ¬((45 :: c :: rest).length = 0 ∨ 10 ≤ (45 :: c :: rest).length) := by
        simp only [List.cons_append, List.nil_append, List.length_cons] at hlen ⊢
        omega
      simp only [List.cons_append, List.nil_append]
      simp only [Btoi64, btoi64Fast, parseIntGo, hlen10, List.head?_cons]
      simp [hall, hrest, h8, hfi, hb63]
      simp only [if_pos hrest]

/-- Witness for C2 at the concrete input `"-123"`. -/
theorem btoi64_agrees_parseInt_witness :
    Btoi64 [45, 49, 50, 51] = parseIntGo [45, 49, 50, 51] ∧
      Btoi64 [45, 49, 50, 51] = some (-123) := by
  constructor
  · exact btoi64_agrees_parseInt [45] [49, 50, 51] (by simp) (by decide) (by decide)
  · decide

/-- C1: `decodeBulkBytes` first parses the length `n`; `n = -1` yields the
null payload, `n < -1` fails with `bad bulk bytes len`, `n` above
`MaxBulkBytesLen = 536870912` fails with `bad bulk bytes len, too long`,
and otherwise exactly `n` payload bytes are read followed by two bytes that
must be `'\r','\n'` (else `bad CRLF end`), returning exactly those `n`
bytes. -/
theorem decodeBulkBytes_spec (s rest : Bytes) (n : Int)
    (hn : decodeInt s = .ok (n, rest)) :
    maxBulkBytesLen = 536870912 ∧
    (n = -1 → decodeBulkBytes s = .ok (none, rest)) ∧
    (n < -1 → decodeBulkBytes s = .error .badBulkBytesLen) ∧
    (n > maxBulkBytesLen → decodeBulkBytes s = .error .badBulkBytesLenTooLong) ∧
    (∀ payload c1 c2 more, 0 ≤ n → n ≤ maxBulkBytesLen →
      payload.length = n.toNat → rest = payload ++ c1 :: c2 :: more →
      (c1 = 13 ∧ c2 = 10 → decodeBulkBytes s = .ok (some payload, more)) ∧
      (¬(c1 = 13 ∧ c2 = 10) → decodeBulkBytes s = .error .badCRLFEnd)) := by
  refine ⟨rfl, ?_, ?_, ?_, ?_⟩
  · intro h
    subst h
    simp [decodeBulkBytes, hn, maxBulkBytesLen]
  · intro h
    simp [decodeBulkBytes, hn, h]
  · intro h
    have h1 : ¬n < -1 := by
      simp only [maxBulkBytesLen] at h
      omega
    simp [decodeBulkBytes, hn, h1, h]
  · intro payload c1 c2 more h0 hmax hplen hrest
    subst hrest
    have h1 : ¬n < -1 := by omega
    have h2 : ¬n > maxBulkBytesLen := by omega
    have h3 : ¬n = -1 := by omega
    have hsplit : payload ++ c1 :: c2 :: more = (payload ++ [c1, c2]) ++ more := by simp
    have hlen2 : (payload ++ [c1, c2]).length = n.toNat + 2 := by
      simp [hplen]
    have hnolt : ¬((payload ++ c1 :: c2 :: more).length < n.toNat + 2) := by
      simp only [List.length_append, List.length_cons, hplen]
      omega
    have htake : (payload ++ c1 :: c2 :: more).take (n.toNat + 2) = payload ++ [c1, c2] := by
      rw [hsplit, List.take_left' hlen2]
    have hget1 : (payload ++ [c1, c2])[n.toNat]? = some c1 := by
      rw [List.getElem?_append_right (le_of_eq hplen)]
      simp [hplen]
    have hget2 : (payload ++ [c1, c2])[n.toNat + 1]? = some c2 := by
      rw [List.getElem?_append_right (by omega)]
      simp [hplen]
    have htakeP : (payload ++ [c1, c2]).take n.toNat = payload := List.take_left' hplen
    have hdrop : (payload ++ c1 :: c2 :: more).drop (n.toNat + 2) = more := by
      rw [hsplit, List.drop_left' hlen2]
    constructor
    · rintro ⟨hc1, hc2⟩
      subst hc1
      subst hc2
      have hcond : ¬((payload ++ [13, 10])[n.toNat]? ≠ some 13 ∨
          (payload ++ [13, 10])[n.toNat + 1]? ≠ some 10) := by
        simp [hget1, hget2]
      simp only [decodeBulkBytes, hn, if_neg h1, if_neg h2, if_neg h3, if_neg hnolt,
        htake, if_neg hcond, htakeP, hdrop]
    · intro hcc
      have hcond : (payload ++ [c1, c2])[n.toNat]? ≠ some 13 ∨
          (payload ++ [c1, c2])[n.toNat + 1]? ≠ some 10 := by
        rw [hget1, hget2]
        by_cases hc1 : c1 = 13
        · right
          subst hc1
          intro hx
          exact hcc ⟨rfl, by simpa using hx⟩
        · left
          intro hx
          exact hc1 (by simpa using hx)
      simp only [decodeBulkBytes, hn, if_neg h1, if_neg h2, if_neg h3, if_neg hnolt,
        htake, if_pos hcond]

/-- Witness for C1 on the frame body `"3\r\nabc\r\n"`. -/
theorem decodeBulkBytes_spec_witness :
    decodeBulkBytes [51, 13, 10, 97, 98, 99, 13, 10] = .ok (some [97, 98, 99], []) := by
  exact ((decodeBulkBytes_spec [51, 13, 10, 97, 98, 99, 13, 10] [97, 98, 99, 13, 10] 3
    rfl).2.2.2.2 [97, 98, 99] 13 10 []
    (by norm_num) (by norm_num [maxBulkBytesLen]) rfl rfl).1 ⟨rfl, rfl⟩

/-- C10: on a stream whose first byte is `'*'` (42), `DecodeMultiBulk`
fails with `bad array len` whenever the parsed count `n` is nonpositive
(including the empty array `n = 0` and the null array `n = -1`), although
`decodeResp` (the core of `Decode`) accepts the very same header bytes as
an empty array and a null array respectively. -/
theorem decodeMultiBulk_rejects_nonpositive (fuel : Nat) (t rest : Bytes) (n : Int)
    (hn : decodeInt t = .ok (n, rest)) (hle : n ≤ 0) :
    decodeMultiBulk fuel (42 :: t) = .error .badArrayLen ∧
    (n = 0 → decodeResp (fuel + 3) (42 :: t) = .ok (.array (some []), rest)) ∧
    (n = -1 → decodeResp (fuel + 3) (42 :: t) = .ok (.array none, rest)) := by
  refine ⟨?_, ?_, ?_⟩
  · simp [decodeMultiBulk, hn, hle]
  · intro h
    subst h
    norm_num [decodeResp, decodeArray, decodeArrayElems, hn, maxArrayLen]
  · intro h
    subst h
    norm_num [decodeResp, decodeArray, hn, maxArrayLen]

/-- Witness for C10 on the stream `"*0\r\n"`. -/
theorem decodeMultiBulk_rejects_nonpositive_witness :
    decodeMultiBulk 5 [42, 48, 13, 10] = .error .badArrayLen ∧
      decodeResp 8 [42, 48, 13, 10] = .ok (.array (some []), []) := by
  have h := decodeMultiBulk_rejects_nonpositive 5 [48, 13, 10] [] 0 rfl (by norm_num)
  exact ⟨h.1, h.2.1 rfl⟩

theorem goTokensLoop_eq_wordsFrom (b : Bytes) :
    ∀ k l r, r + k = b.length + 1 → l ≤ r → r ≤ b.length →
      goTokensLoop b k l r = wordsFrom ((b.drop l).take (r - l)) (b.drop r) := by
  intro k
  induction k with
  | zero =>
    intro l r hk hlr hrb
    omega
  | succ k ih =>
    intro l r hk hlr hrb
    have hcurlen : ((b.drop l).take (r - l)).length = r - l := by
      simp only [List.length_take, List.length_drop]
      omega
    have hcur_nil : ((b.drop l).take (r - l)) = [] ↔ ¬l < r := by
      rw [← List.length_eq_zero]
      omega
    by_cases hr : r = b.length
    · have hk0 : k = 0 := by omega
      subst hk0
      subst hr
      have hcond : b.length = b.length ∨ b[b.length]? = some 32 := Or.inl rfl
      rw [goTokensLoop, if_pos hcond]
      have hrec : goTokensLoop b 0 (b.length + 1) (b.length + 1) = [] := rfl
      rw [hrec, List.append_nil, List.drop_length, wordsFrom]
      by_cases hlt : l < b.length
      · rw [if_pos hlt, if_neg fun hx => (hcur_nil.mp hx) hlt]
      · rw [if_neg hlt, if_pos (hcur_nil.mpr hlt)]
    · have hrlt : r < b.length := by omega
      have hdropr : b.drop r = b[r] :: b.drop (r + 1) :=
        List.drop_eq_getElem_cons hrlt
      by_cases hsp : b[r] = 32
      · have hcond : r = b.length ∨ b[r]? = some 32 :=
          Or.inr (by rw [List.getElem?_eq_getElem hrlt, hsp])
        rw [goTokensLoop, if_pos hcond]
        rw [ih (r + 1) (r + 1) (by omega) le_rfl (by omega)]
        rw [hdropr, wordsFrom, if_pos hsp]
        simp only [Nat.sub_self, List.take_zero]
        by_cases hlt : l < r
        · rw [if_pos hlt, if_neg (by rw [hcur_nil]; omega)]
        · rw [if_neg hlt, if_pos (by rw [hcur_nil]; omega)]
      · have hcond : ¬(r = b.length ∨ b[r]? = some 32) := by
          rw [List.getElem?_eq_getElem hrlt]
          push_neg
          exact ⟨hr, by simpa using hsp⟩
        rw [goTokensLoop, if_neg hcond]
        rw [ih l (r + 1) (by omega) (by omega) (by omega)]
        rw [hdropr, wordsFrom, if_neg hsp]
        congr 1
        have hs : r + 1 - l = (r - l) + 1 := by omega
        rw [hs, List.take_succ]
        congr 1
        rw [List.getElem?_drop]
        rw [List.getElem?_eq_getElem (by omega : l + (r - l) < b.length)]
        have : l + (r - l) = r := by omega
        simp [this]

theorem wordsFrom_eq_splitOnP (s : Bytes) :
    ∀ cur, wordsFrom cur s =
      ((s.splitOnP (fun c => c == 32)).modifyHead (cur ++ ·)).filter
        (fun t => !t.isEmpty) := by
  induction s with
  | nil =>
    intro cur
    rw [wordsFrom]
    simp only [List.splitOnP_nil, List.modifyHead_cons, List.append_nil]
    by_cases h : cur = []
    · subst h
      simp
    · rw [if_neg h]
      have : cur.isEmpty = false := by
        simpa [List.isEmpty_iff] using h
      simp [this]
  | cons c rest ih =>
    intro cur
    rw [wordsFrom, List.splitOnP_cons]
    by_cases hc : c = 32
    · subst hc
      rw [if_pos rfl, if_pos (show ((32 : Nat) == 32) = true from rfl)]
      simp only [List.modifyHead_cons, List.append_nil, List.filter_cons]
      rw [ih []]
      have hid : (List.splitOnP (fun c => c == 32) rest).modifyHead ([] ++ ·)
          = List.splitOnP (fun c => c == 32) rest := by
        cases h : List.splitOnP (fun c => c == 32) rest with
        | nil => rfl
        | cons a l => simp
      rw [hid]
      by_cases h : cur = []
      · subst h
        simp
      · rw [if_neg h]
        have : cur.isEmpty = false := by
          simpa [List.isEmpty_iff] using h
        simp [this]
    · rw [if_neg hc, if_neg (by simpa using hc)]
      rw [ih (cur ++ [c])]
      congr 1
      cases h : List.splitOnP (fun x => x == 32) rest with
      | nil => exact absurd h (List.splitOnP_ne_nil _ rest)
      | cons a l => simp

theorem wordsFrom_ne_nil (s : Bytes) :
    ∀ cur, cur ≠ [] → wordsFrom cur s ≠ [] := by
  induction s with
  | nil =>
    intro cur h
    rw [wordsFrom, if_neg h]
    simp
  | cons c rest ih =>
    intro cur h
    rw [wordsFrom]
    by_cases hc : c = 32
    · rw [if_pos hc, if_neg h]
      simp
    · rw [if_neg hc]
      exact ih (cur ++ [c]) (by simp)

theorem wordsFrom_nil_iff (s : Bytes) :
    wordsFrom [] s = [] ↔ ∀ x ∈ s, x = 32 := by
  induction s with
  | nil => simp [wordsFrom]
  | cons c rest ih =>
    rw [wordsFrom]
    by_cases hc : c = 32
    · subst hc
      rw [if_pos rfl, if_pos rfl]
      simp only [List.nil_append]
      rw [ih]
      constructor
      · intro h x hx
        rcases List.mem_cons.mp hx with h32 | hm
        · exact h32
        · exact h x hm
      · intro h x hx
        exact h x (List.mem_cons_of_mem _ hx)
    · rw [if_neg hc]
      constructor
      · intro h
        exact absurd h (wordsFrom_ne_nil rest [c] (by simp))
      · intro h
        exact absurd (h c (List.mem_cons_self c rest)) hc

theorem goTokens_eq_splitOn (b : Bytes) :
    goTokens b = (b.splitOn 32).filter (fun t => !t.isEmpty) := by
  rw [goTokens, goTokensLoop_eq_wordsFrom b (b.length + 1) 0 0 (by omega) le_rfl (by omega)]
  simp only [Nat.sub_self, List.take_zero, List.drop_zero]
  rw [wordsFrom_eq_splitOnP]
  have hid : (List.splitOnP (fun c => c == 32) b).modifyHead ([] ++ ·)
      = List.splitOnP (fun c => c == 32) b := by
    cases h : List.splitOnP (fun c => c == 32) b with
    | nil => rfl
    | cons a l => simp
  rw [hid]
  rfl

/-- C4: on a stream whose first byte is not `'*'`, `DecodeMultiBulk` parses
one CRLF-terminated line and splits it on spaces into bulk values, skipping
empty tokens (so trailing or repeated whitespace is accepted); a line with
no non-space token fails with `bad multi-bulk len`. -/
theorem decodeMultiBulk_inline_spec (fuel : Nat) (c : Nat) (t b rest : Bytes)
    (hc : c ≠ 42) (hline : decodeTextBytes (c :: t) = .ok (b, rest)) :
    (goTokens b = [] → decodeMultiBulk fuel (c :: t) = .error .badMultiBulkLen) ∧
    (goTokens b ≠ [] → decodeMultiBulk fuel (c :: t) =
        .ok ((goTokens b).map (fun w => Resp.bulk (some w)), rest)) ∧
    goTokens b = (b.splitOn 32).filter (fun t => !t.isEmpty) ∧
    (goTokens b = [] ↔ ∀ x ∈ b, x = 32) := by
  have hstep : decodeMultiBulk fuel (c :: t) = decodeSingleLineMultiBulk (c :: t) := by
    simp [decodeMultiBulk, hc]
  have hwords : goTokens b = wordsFrom [] b := by
    rw [goTokens, goTokensLoop_eq_wordsFrom b (b.length + 1) 0 0 (by omega) le_rfl (by omega)]
    simp
  refine ⟨?_, ?_, goTokens_eq_splitOn b, by rw [hwords]; exact wordsFrom_nil_iff b⟩
  · intro h
    rw [hstep]
    simp [decodeSingleLineMultiBulk, hline, h]
  · intro h
    rw [hstep]
    have hne : ¬((goTokens b).map (fun w => Resp.bulk (some w))).length = 0 := by
      simpa [List.length_eq_zero] using h
    simp only [decodeSingleLineMultiBulk, hline]
    rw [if_neg hne]

/-- Witness for C4 on the inline line `"GET  k \r\n"` (double and trailing
spaces). -/
theorem decodeMultiBulk_inline_spec_witness :
    decodeMultiBulk 5 [71, 69, 84, 32, 32, 107, 32, 13, 10] =
      .ok ([Resp.bulk (some [71, 69, 84]), Resp.bulk (some [107])], []) := by
  have h := decodeMultiBulk_inline_spec 5 71 [69, 84, 32, 32, 107, 32, 13, 10]
    [71, 69, 84, 32, 32, 107, 32] [] (by decide) rfl
  exact h.2.1 (by decide)

theorem decodeTextBytes_noFD (s : Bytes) : decodeTextBytes s ≠ .error .failedDecoder := by
  rw [decodeTextBytes]
  intro hx
  split at hx
  · simp at hx
  · split_ifs at hx <;> simp at hx

theorem decodeInt_noFD (s : Bytes) : decodeInt s ≠ .error .failedDecoder := by
  rw [decodeInt]
  intro hx
  split at hx
  · simp at hx
  · split_ifs at hx <;> try simp at hx
    split at hx <;> simp at hx

theorem decodeBulkBytes_noFD (s : Bytes) : decodeBulkBytes s ≠ .error .failedDecoder := by
  rw [decodeBulkBytes]
  intro hx
  split at hx
  · rename_i e heq
    have hfd : e = DErr.failedDecoder := by simpa using hx
    subst hfd
    exact decodeInt_noFD s heq
  · split_ifs at hx <;> try simp at hx
    rw [ite_eq_iff] at hx
    rcases hx with ⟨-, hx⟩ | ⟨-, hx⟩ <;> simp at hx

theorem decode_noFD (fuel : Nat) :
    (∀ s, decodeResp fuel s ≠ .error .failedDecoder) ∧
    (∀ n s, decodeArrayElems fuel n s ≠ .error .failedDecoder) ∧
    (∀ s, decodeArray fuel s ≠ .error .failedDecoder) := by
  induction fuel with
  | zero =>
    refine ⟨fun s => ?_, fun n s => ?_, fun s => ?_⟩ <;>
      simp [decodeResp, decodeArrayElems, decodeArray]
  | succ f ih =>
    obtain ⟨ihr, ihe, iha⟩ := ih
    refine ⟨fun s => ?_, fun n s => ?_, fun s => ?_⟩
    · cases s with
      | nil => simp [decodeResp]
      | cons b rest =>
        rw [decodeResp]
        intro hx
        split_ifs at hx
        · split at hx
          · rename_i e heq
            have hfd : e = DErr.failedDecoder := by simpa using hx
            subst hfd
            exact decodeTextBytes_noFD rest heq
          · simp at hx
        · split at hx
          · rename_i e heq
            have hfd : e = DErr.failedDecoder := by simpa using hx
            subst hfd
            exact decodeTextBytes_noFD rest heq
          · simp at hx
        · split at hx
          · rename_i e heq
            have hfd : e = DErr.failedDecoder := by simpa using hx
            subst hfd
            exact decodeTextBytes_noFD rest heq
          · simp at hx
        · split at hx
          · rename_i e heq
            have hfd : e = DErr.failedDecoder := by simpa using hx
            subst hfd
            exact decodeBulkBytes_noFD rest heq
          · simp at hx
        · split at hx
          · rename_i e heq
            have hfd : e = DErr.failedDecoder := by simpa using hx
            subst hfd
            exact iha rest heq
          · simp at hx
        · simp at hx
    · cases n with
      | zero => simp [decodeArrayElems]
      | succ m =>
        rw [decodeArrayElems]
        intro hx
        split at hx
        · rename_i e heq
          have hfd : e = DErr.failedDecoder := by simpa using hx
          subst hfd
          exact ihr s heq
        · rename_i r rest heq
          split at hx
          · rename_i e2 heq2
            have hfd : e2 = DErr.failedDecoder := by simpa using hx
            subst hfd
            exact ihe m rest heq2
          · simp at hx
    · rw [decodeArray]
      intro hx
      split at hx
      · rename_i e heq
        have hfd : e = DErr.failedDecoder := by simpa using hx
        subst hfd
        exact decodeInt_noFD s heq
      · rename_i n rest heq
        split_ifs at hx <;> try simp at hx
        split at hx
        · rename_i e2 heq2
          have hfd : e2 = DErr.failedDecoder := by simpa using hx
          subst hfd
          exact ihe n.toNat rest heq2
        · simp at hx

theorem decodeMultiBulkElems_noFD :
    ∀ fuel n s, decodeMultiBulkElems fuel n s ≠ .error .failedDecoder := by
  intro fuel
  induction fuel with
  | zero =>
    intro n s
    simp [decodeMultiBulkElems]
  | succ f ih =>
    intro n s
    cases n with
    | zero => simp [decodeMultiBulkElems]
    | succ m =>
      rw [decodeMultiBulkElems]
      intro hx
      split at hx
      · rename_i e heq
        have hfd : e = DErr.failedDecoder := by simpa using hx
        subst hfd
        exact (decode_noFD f).1 s heq
      · rename_i v rest heq
        split at hx
        · rename_i e2 heq2
          have hfd : e2 = DErr.failedDecoder := by simpa using hx
          subst hfd
          exact ih m rest heq2
        · simp at hx
      · simp at hx

theorem decodeSingleLineMultiBulk_noFD (s : Bytes) :
    decodeSingleLineMultiBulk s ≠ .error .failedDecoder := by
  rw [decodeSingleLineMultiBulk]
  intro hx
  split at hx
  · rename_i e heq
    have hfd : e = DErr.failedDecoder := by simpa using hx
    subst hfd
    exact decodeTextBytes_noFD s heq
  · rename_i v r heq
    replace hx :
        (if (List.map (fun t => Resp.bulk (some t)) (goTokens v)).length = 0
          then (Except.error DErr.badMultiBulkLen : Except DErr (List Resp × Bytes))
          else .ok (List.map (fun t => Resp.bulk (some t)) (goTokens v), r)) =
          .error .failedDecoder := hx
    split_ifs at hx <;> simp at hx

theorem decodeMultiBulk_noFD (fuel : Nat) (s : Bytes) :
    decodeMultiBulk fuel s ≠ .error .failedDecoder := by
  cases s with
  | nil => simp [decodeMultiBulk]
  | cons b rest =>
    rw [decodeMultiBulk]
    intro hx
    split_ifs at hx with hb
    · exact decodeSingleLineMultiBulk_noFD _ hx
    · split at hx
      · rename_i e heq
        have hfd : e = DErr.failedDecoder := by simpa using hx
        subst hfd
        exact decodeInt_noFD rest heq
      · rename_i n r heq
        split_ifs at hx
        · simp at hx
        · simp at hx
        · exact decodeMultiBulkElems_noFD fuel n.toNat r hx

/-- C5: the decoder error is sticky — when `Err` is set, both `Decode` and
`DecodeMultiBulk` return `use of failed decoder` without touching the input;
a failing call records its error in `Err` (so all later calls fail that
way); and a decoder whose `Err` is `nil` never produces the
`use of failed decoder` error itself. -/
theorem decoder_sticky_failure (fuel : Nat) (d : Decoder) :
    (∀ e, d.err = some e →
      d.decode fuel = (.error .failedDecoder, d) ∧
      d.decodeMB fuel = (.error .failedDecoder, d)) ∧
    (d.err = none → ∀ e,
      ((d.decode fuel).1 = .error e → (d.decode fuel).2.err = some e) ∧
      ((d.decodeMB fuel).1 = .error e → (d.decodeMB fuel).2.err = some e)) ∧
    (d.err = none →
      (d.decode fuel).1 ≠ .error .failedDecoder ∧
      (d.decodeMB fuel).1 ≠ .error .failedDecoder) := by
  refine ⟨?_, ?_, ?_⟩
  · intro e he
    constructor <;> simp [Decoder.decode, Decoder.decodeMB, he]
  · intro he e
    constructor
    · intro hx
      simp only [Decoder.decode, he] at hx ⊢
      cases h : decodeResp fuel d.input with
      | ok p => rw [h] at hx; simp at hx
      | error e2 =>
        rw [h] at hx
        simp at hx ⊢
        exact hx
    · intro hx
      simp only [Decoder.decodeMB, he] at hx ⊢
      cases h : decodeMultiBulk fuel d.input with
      | ok p => rw [h] at hx; simp at hx
      | error e2 =>
        rw [h] at hx
        simp at hx ⊢
        exact hx
  · intro he
    constructor
    · simp only [Decoder.decode, he]
      cases h : decodeResp fuel d.input with
      | ok p => simp
      | error e2 =>
        intro hx
        simp at hx
        exact (decode_noFD fuel).1 d.input (by rw [h, hx])
    · simp only [Decoder.decodeMB, he]
      cases h : decodeMultiBulk fuel d.input with
      | ok p => simp
      | error e2 =>
        intro hx
        simp at hx
        exact decodeMultiBulk_noFD fuel d.input (by rw [h, hx])

/-- Witness for C5: a decoder with its sticky error set refuses a `Decode`
call with `use of failed decoder` and unchanged state. -/
theorem decoder_sticky_failure_witness :
    (Decoder.mk (some DErr.badCRLFEnd) [43]).decode 1 =
      (.error .failedDecoder, Decoder.mk (some DErr.badCRLFEnd) [43]) :=
  ((decoder_sticky_failure 1 (Decoder.mk (some DErr.badCRLFEnd) [43])).1
    DErr.badCRLFEnd rfl).1

theorem firstIdx_none (delim : Nat) (l : Bytes) (h : firstIdx delim l = none) :
    delim ∉ l := by
  induction l with
  | nil => simp
  | cons c rest ih =>
    rw [firstIdx] at h
    by_cases hc : c = delim
    · rw [if_pos hc] at h
      simp at h
    · rw [if_neg hc] at h
      intro hm
      rcases List.mem_cons.mp hm with h1 | h1
      · exact hc h1.symm
      · cases hrest : firstIdx delim rest with
        | none => exact ih hrest h1
        | some j => rw [hrest] at h; simp at h

theorem firstIdx_some (delim : Nat) :
    ∀ (l : Bytes) (i : Nat), firstIdx delim l = some i →
      i < l.length ∧ l.take (i + 1) = l.take i ++ [delim] ∧ delim ∉ l.take i := by
  intro l
  induction l with
  | nil =>
    intro i h
    simp [firstIdx] at h
  | cons c rest ih =>
    intro i h
    rw [firstIdx] at h
    by_cases hc : c = delim
    · rw [if_pos hc] at h
      simp only [Option.some.injEq] at h
      subst h
      subst hc
      refine ⟨by simp, by simp, by simp⟩
    · rw [if_neg hc] at h
      cases hrest : firstIdx delim rest with
      | none => rw [hrest] at h; simp at h
      | some j =>
        rw [hrest] at h
        have hij : i = j + 1 := by
          simp at h
          omega
        subst hij
        obtain ⟨hj, htake, hnot⟩ := ih j hrest
        refine ⟨by simp; omega, ?_, ?_⟩
        · simp only [List.take_cons, List.take_succ_cons] at htake ⊢
          rw [htake]
          simp
        · simp only [List.take_succ_cons, List.mem_cons]
          rintro (h1 | h1)
          · exact hc h1.symm
          · exact hnot h1

theorem fill_spec (b : RState) (he : b.err = none) (hwf : b.WF) :
    ((b.fill).err = none →
      (b.fill).src.length < b.src.length ∧ (b.fill).WF ∧ (b.fill).err = none ∧
      (b.fill).data.drop (b.fill).rpos ++ (b.fill).src = b.data.drop b.rpos ++ b.src ∧
      (b.fill).cap = b.cap) ∧
    (∀ e, (b.fill).err = some e → e = .eof ∨ e = .noProgress) := by
  obtain ⟨hrw, hwc, hcpos⟩ := hwf
  rw [RState.fill, he]
  by_cases hsrc : b.src.isEmpty
  · simp only [if_pos hsrc]
    constructor
    · intro h
      simp at h
    · intro e h
      simp at h
      exact Or.inl h.symm
  · simp only [if_neg hsrc]
    by_cases hspace : b.cap - (b.data.drop b.rpos).length = 0
    · simp only [if_pos hspace]
      constructor
      · intro h
        simp at h
      · intro e h
        simp at h
        exact Or.inr h.symm
    · simp only [if_neg hspace]
      constructor
      · intro _
        have hsrcne : b.src ≠ [] := by
          simpa [List.isEmpty_iff] using hsrc
        have hsrcpos : 0 < b.src.length := List.length_pos.mpr hsrcne
        have hdlen : (b.data.drop b.rpos).length = b.data.length - b.rpos := by
          simp
        refine ⟨?_, ⟨?_, ?_, ?_⟩, trivial, ?_, trivial⟩
        · simp only [List.length_drop]
          omega
        · simp
        · simp only [List.length_append, List.length_take, List.length_drop]
          omega
        · exact hcpos
        · simp only [List.drop_zero, List.append_assoc, List.take_append_drop]
      · intro e h
        simp at h
  
theorem readSliceLoop_spec (delim : Nat) :
    ∀ (k : Nat) (b : RState), b.src.length < k → b.WF → b.err = none →
      ((readSliceLoop delim k b).2.2 = none →
        (readSliceLoop delim k b).2.1 ≠ [] ∧
        (readSliceLoop delim k b).2.1.getLast? = some delim ∧
        delim ∉ (readSliceLoop delim k b).2.1.dropLast ∧
        (readSliceLoop delim k b).2.1 ++
          ((readSliceLoop delim k b).1.data.drop (readSliceLoop delim k b).1.rpos ++
            (readSliceLoop delim k b).1.src) = b.data.drop b.rpos ++ b.src) ∧
      ((readSliceLoop delim k b).2.2 = some .bufferFull →
        (readSliceLoop delim k b).2.1.length = b.cap ∧
        delim ∉ (readSliceLoop delim k b).2.1 ∧
        (readSliceLoop delim k b).1.rpos = (readSliceLoop delim k b).1.data.length ∧
        (readSliceLoop delim k b).2.1 ++ (readSliceLoop delim k b).1.src =
          b.data.drop b.rpos ++ b.src) := by
  intro k
  induction k with
  | zero =>
    intro b hk
    omega
  | succ k ih =>
    intro b hk hwf he
    rw [readSliceLoop]
    cases hidx : firstIdx delim (b.data.drop b.rpos) with
    | some i =>
      obtain ⟨hi, htake, hnot⟩ := firstIdx_some delim (b.data.drop b.rpos) i hidx
      simp only
      constructor
      · intro _
        refine ⟨?_, ?_, ?_, ?_⟩
        · rw [htake]
          simp
        · rw [htake]
          exact List.getLast?_concat _
        · rw [htake, List.dropLast_concat]
          exact hnot
        · show (b.data.drop b.rpos).take (i + 1) ++ (b.data.drop (b.rpos + i + 1) ++ b.src)
            = b.data.drop b.rpos ++ b.src
          have hdd : b.data.drop (b.rpos + i + 1) = (b.data.drop b.rpos).drop (i + 1) := by
            rw [List.drop_drop]
            try congr 1
            try omega
          rw [hdd, ← List.append_assoc, List.take_append_drop]
      · intro h
        simp at h
    | none =>
      by_cases hfull : b.data.length - b.rpos = b.cap
      · simp only [if_pos hfull]
        obtain ⟨hrw, hwc, hcpos⟩ := hwf
        have hr0 : b.rpos = 0 ∧ b.data.length = b.cap := by omega
        constructor
        · intro h
          simp at h
        · intro _
          refine ⟨hr0.2, ?_, trivial, ?_⟩
          · have := firstIdx_none delim _ hidx
            rwa [hr0.1, List.drop_zero] at this
          · show b.data ++ b.src = b.data.drop b.rpos ++ b.src
            rw [hr0.1, List.drop_zero]
      · simp only [if_neg hfull]
        have hfs := fill_spec b he hwf
        cases he2 : (b.fill).err with
        | some e =>
          simp only
          constructor
          · intro h
            simp at h
          · intro h
            simp only [Option.some.injEq] at h
            rcases hfs.2 e he2 with h1 | h1 <;> (subst h1; cases h)
        | none =>
          simp only
          obtain ⟨hlen, hwf2, he2b, hstream, hcap⟩ := hfs.1 he2
          have hih := ih b.fill (by omega) hwf2 he2b
          constructor
          · intro h
            obtain ⟨h1, h2, h3, h4⟩ := hih.1 h
            exact ⟨h1, h2, h3, by rw [h4, hstream]⟩
          · intro h
            obtain ⟨h1, h2, h3, h4⟩ := hih.2 h
            exact ⟨by rw [h1, hcap], h2, h3, by rw [h4, hstream]⟩

/-- C3: `ReadSlice` on a reader with no sticky error either returns, with
no error, exactly the bytes from the read cursor through the first
occurrence of the delimiter (the delimiter is the last byte of the slice
and occurs nowhere earlier, and the remaining logical stream continues just
past it), or — when the buffer fills completely without the delimiter —
returns the full buffer contents with `BufferFull`, sets `rpos = wpos`
(discarding the overrun) so the next read starts past it.  It never
returns error-free without the delimiter as last byte. -/
theorem readSlice_spec (b : RState) (delim : Nat) (hwf : b.WF) (he : b.err = none) :
    ((b.readSlice delim).2.2 = none →
      (b.readSlice delim).2.1 ≠ [] ∧
      (b.readSlice delim).2.1.getLast? = some delim ∧
      delim ∉ (b.readSlice delim).2.1.dropLast ∧
      (b.readSlice delim).2.1 ++
        ((b.readSlice delim).1.data.drop (b.readSlice delim).1.rpos ++
          (b.readSlice delim).1.src) = b.data.drop b.rpos ++ b.src) ∧
    ((b.readSlice delim).2.2 = some .bufferFull →
      (b.readSlice delim).2.1.length = b.cap ∧
      delim ∉ (b.readSlice delim).2.1 ∧
      (b.readSlice delim).1.rpos = (b.readSlice delim).1.data.length ∧
      (b.readSlice delim).2.1 ++ (b.readSlice delim).1.src =
        b.data.drop b.rpos ++ b.src) := by
  have h := readSliceLoop_spec delim (b.src.length + 1) b (by omega) hwf he
  have hredef : b.readSlice delim = readSliceLoop delim (b.src.length + 1) b := by
    rw [RState.readSlice, he]
  rw [hredef]
  exact h

/-- Witness for C3: a 4-byte reader holding `"A\nB"` returns `"A\n"` for
`ReadSlice('\n')` and advances the cursor past the newline. -/
theorem readSlice_spec_witness :
    ((RState.mk none 4 [65, 10, 66] 0 []).readSlice 10).2.1 = [65, 10] ∧
    ((RState.mk none 4 [65, 10, 66] 0 []).readSlice 10).2.1.getLast? = some 10 := by
  refine ⟨rfl, ?_⟩
  exact ((readSlice_spec (RState.mk none 4 [65, 10, 66] 0 [])
    10 ⟨by decide, by decide, by decide⟩ rfl).1 rfl).2.1

/-- C6: the reader loop compare-and-swaps `Connected → DataStale` on an
error reply whose payload begins with `MASTERDOWN` or `LOADING` while still
completing the request with that reply and no error; and the keepalive
`INFO` callback in state `DataStale` swaps back to `Connected` exactly when
the parsed reply contains neither `master_link_status: down` nor
`loading: 1`, staying `DataStale` otherwise. -/
theorem backend_health_transitions :
    (∀ st v,
      errRespMasterDown.isPrefixOf v = true ∨ errRespLoading.isPrefixOf v = true →
      loopReaderStep st (.err v) =
        (if st = stateConnected then stateDataStale else st, (some (.err v), none))) ∧
    (∀ v, keepAliveInfoStep stateDataStale none (some (.bulk (some v))) = stateConnected ↔
      (infoGet v (strBytes "master_link_status") ≠ strBytes "down" ∧
       infoGet v (strBytes "loading") ≠ strBytes "1")) ∧
    (∀ v, (infoGet v (strBytes "master_link_status") = strBytes "down" ∨
           infoGet v (strBytes "loading") = strBytes "1") →
      keepAliveInfoStep stateDataStale none (some (.bulk (some v))) = stateDataStale) := by
  refine ⟨?_, ?_, ?_⟩
  · intro st v h
    rw [loopReaderStep]
    by_cases hmd : errRespMasterDown.isPrefixOf v = true
    · simp [hmd, casState]
    · have hld : errRespLoading.isPrefixOf v = true := h.resolve_left hmd
      simp [hmd, hld, casState]
  · intro v
    rw [keepAliveInfoStep]
    by_cases h1 : infoGet v (strBytes "master_link_status") = strBytes "down" <;>
      by_cases h2 : infoGet v (strBytes "loading") = strBytes "1" <;>
        norm_num [h1, h2, casState, stateDataStale, stateConnected]
  · intro v h
    rw [keepAliveInfoStep]
    rcases h with h | h
    · simp [h]
    · by_cases h1 : infoGet v (strBytes "master_link_status") = strBytes "down"
      · simp [h1]
      · simp [h1, h]

/-- Witness for C6: a `MASTERDOWN` error reply moves `Connected` to
`DataStale` while completing the request with the reply; a keepalive `INFO`
reply containing `loading:1` keeps the state `DataStale`, and one with
`master_link_status:up` and `loading:0` recovers to `Connected`. -/
theorem backend_health_transitions_witness :
    loopReaderStep stateConnected (.err (strBytes "MASTERDOWN err")) =
      (stateDataStale, (some (.err (strBytes "MASTERDOWN err")), none)) ∧
    keepAliveInfoStep stateDataStale none
      (some (.bulk (some (strBytes "loading:1\n")))) = stateDataStale ∧
    keepAliveInfoStep stateDataStale none
      (some (.bulk (some (strBytes "master_link_status:up\nloading:0\n")))) =
      stateConnected := by
  refine ⟨?_, ?_, ?_⟩
  · have h := backend_health_transitions.1 stateConnected (strBytes "MASTERDOWN err")
      (Or.inl (by decide))
    simpa using h
  · exact backend_health_transitions.2.2 (strBytes "loading:1\n") (Or.inr (by decide))
  · exact (backend_health_transitions.2.1
      (strBytes "master_link_status:up\nloading:0\n")).mpr ⟨by decide, by decide⟩

theorem probeLoop_eq_find (ws : List Int) :
    ∀ (k i : Nat), probeLoop ws i k =
      ((List.range k).map (fun m => (i + 1 + m) % ws.length)).find?
        (fun j => ws.getD j 0 == stateConnected) := by
  intro k
  induction k with
  | zero =>
    intro i
    simp [probeLoop]
  | succ k ih =>
    intro i
    rw [probeLoop, List.range_succ_eq_map]
    simp only [List.map_cons, List.map_map, List.find?_cons]
    by_cases hj : ws.getD ((i + 1) % ws.length) 0 == stateConnected
    · simp only [Nat.add_zero] at hj ⊢
      rw [hj]
      simp
    · have hjf : (ws.getD ((i + 1 + 0) % ws.length) 0 == stateConnected) = false := by
        simpa using hj
      rw [hjf]
      simp only [Bool.false_eq_true, if_false]
      rw [ih ((i + 1) % ws.length)]
      congr 1
      apply List.map_congr_left
      intro m _
      simp only [Function.comp_apply]
      rw [Nat.add_assoc, Nat.mod_add_mod]
      congr 1
      omega

/-- C7: worker selection.  With `parallel == 1` the precomputed
`single[db]` (worker 0) is returned when `must` holds or it is `Connected`,
and `nil` otherwise.  With `parallel > 1` the workers of `conns[db]` are
probed starting at `(seed+1) mod N`, round-robin for at most `N` steps,
returning the first `Connected` one; when none is `Connected` the result is
`nil` for `must = false` and `conns[db][0]` for `must = true`. -/
theorem sbc_backendConn_spec :
    (∀ sgl conns db seed must,
      sbcSelect (some sgl) conns db seed must =
        (if must || (sgl.getD db 0 == stateConnected) then some 0 else none)) ∧
    (∀ conns db seed must,
      sbcSelect none conns db seed must =
        (match ((List.range (conns.getD db []).length).map
              (fun m => (seed + 1 + m) % (conns.getD db []).length)).find?
              (fun j => (conns.getD db []).getD j 0 == stateConnected) with
          | some j => some j
          | none => if must then some 0 else none)) ∧
    (∀ conns db seed must, (∀ w ∈ conns.getD db [], w ≠ stateConnected) →
      sbcSelect none conns db seed must = (if must then some 0 else none)) := by
  have hmain : ∀ conns db seed must,
      sbcSelect none conns db (seed : Nat) must =
        (match ((List.range (conns.getD db []).length).map
              (fun m => (seed + 1 + m) % (conns.getD db []).length)).find?
              (fun j => (conns.getD db []).getD j 0 == stateConnected) with
          | some j => some j
          | none => if must then some 0 else none) := by
    intro conns db seed must
    rw [sbcSelect, probeLoop_eq_find]
  refine ⟨fun sgl conns db seed must => rfl, hmain, ?_⟩
  intro conns db seed must hnone
  rw [hmain]
  have hfind : ((List.range (conns.getD db []).length).map
      (fun m => (seed + 1 + m) % (conns.getD db []).length)).find?
      (fun j => (conns.getD db []).getD j 0 == stateConnected) = none := by
    rw [List.find?_eq_none]
    intro j hj
    rcases List.mem_map.mp hj with ⟨m, hm, hjm⟩
    have hlen : 0 < (conns.getD db []).length := by
      rcases Nat.eq_zero_or_pos (conns.getD db []).length with h0 | h0
      · rw [h0] at hm
        simp at hm
      · exact h0
    have hjlt : j < (conns.getD db []).length := by
      rw [← hjm]
      exact Nat.mod_lt _ hlen
    rw [List.getD_eq_getElem _ _ hjlt]
    simpa using hnone _ (List.getElem_mem hjlt)
  rw [hfind]

/-- Witness for C7: two disconnected workers, `must = false`, yields `nil`. -/
theorem sbc_backendConn_spec_witness :
    sbcSelect none [[0, 0]] 0 5 false = none :=
  sbc_backendConn_spec.2.2 [[0, 0]] 0 5 false (by decide)

theorem poolGet_set_same (p : Pool) (a : String) (c : SConn) :
    poolGet (poolSet p a c) a = some c := by
  induction p with
  | nil => simp [poolSet, poolGet]
  | cons hd rest ih =>
    obtain ⟨b, d⟩ := hd
    rw [poolSet]
    by_cases hb : b = a
    · rw [if_pos hb, poolGet, if_pos rfl]
    · rw [if_neg hb, poolGet, if_neg hb]
      exact ih

theorem poolGet_del_same (p : Pool) (a : String) :
    poolGet (poolDel p a) a = none := by
  induction p with
  | nil => simp [poolDel, poolGet]
  | cons hd rest ih =>
    obtain ⟨b, d⟩ := hd
    rw [poolDel]
    by_cases hb : b = a
    · rw [if_pos hb]
      exact ih
    · rw [if_neg hb, poolGet, if_neg hb]
      exact ih

theorem poolDel_set (p : Pool) (a : String) (c : SConn) :
    poolDel (poolSet p a c) a = poolDel p a := by
  induction p with
  | nil => simp [poolSet, poolDel]
  | cons hd rest ih =>
    obtain ⟨b, d⟩ := hd
    rw [poolSet]
    by_cases hb : b = a
    · rw [if_pos hb, poolDel, if_pos rfl, poolDel, if_pos hb]
    · rw [if_neg hb, poolDel, if_neg hb, poolDel, if_neg hb, ih]

theorem retainN_ok (databases parallel : Nat) (addr : String) :
    ∀ (k : Nat) (p : Pool) (c : SConn), poolGet p addr = some c → 0 < c.refcnt →
      ∃ p2, retainN databases parallel addr k p = some p2 ∧
        poolGet p2 addr = some ⟨c.refcnt + (k : Int), c.workers⟩ := by
  intro k
  induction k with
  | zero =>
    intro p c hget hpos
    refine ⟨p, rfl, ?_⟩
    simpa using hget
  | succ k ih =>
    intro p c hget hpos
    simp only [retainN, poolRetain, hget, if_neg (show ¬c.refcnt ≤ 0 by omega)]
    obtain ⟨p2, hr, hg⟩ := ih (poolSet p addr { c with refcnt := c.refcnt + 1 })
      ⟨c.refcnt + 1, c.workers⟩ (poolGet_set_same p addr _) (by simp; omega)
    refine ⟨p2, hr, ?_⟩
    rw [hg]
    have hc : (⟨c.refcnt + 1, c.workers⟩ : SConn).refcnt + (k : Int) =
        c.refcnt + ((k : Nat) + 1 : Nat) := by
      show c.refcnt + 1 + (k : Int) = c.refcnt + (((k : Nat) + 1 : Nat) : Int)
      push_cast
      ring
    rw [hc]

theorem releaseN_ok (addr : String) :
    ∀ (k : Nat) (p : Pool) (c : SConn), poolGet p addr = some c →
      c.refcnt = (k : Int) + 1 →
      releaseN addr (k + 1) p = some (poolDel p addr) := by
  intro k
  induction k with
  | zero =>
    intro p c hget hcnt
    rw [releaseN]
    simp only [poolRelease, hget, if_neg (show ¬c.refcnt ≤ 0 by omega),
      if_neg (show ¬(c.refcnt - 1 ≠ 0) by omega)]
    rfl
  | succ k ih =>
    intro p c hget hcnt
    rw [releaseN]
    simp only [poolRelease, hget, if_neg (show ¬c.refcnt ≤ 0 by omega),
      if_pos (show c.refcnt - 1 ≠ 0 by push_cast at hcnt; omega)]
    have hrel := ih (poolSet p addr { c with refcnt := c.refcnt - 1 })
      ⟨c.refcnt - 1, c.workers⟩ (poolGet_set_same p addr _)
      (by show c.refcnt - 1 = (k : Int) + 1
          push_cast at hcnt
          omega)
    rw [hrel, poolDel_set]

/-- C8: the pool refcount discipline.  `Retain` on a present address
increments the refcount, on an absent one inserts a conn with refcount 1
and `databases × parallel` workers; `Retain`/`Release` on a refcount ≤ 0
panic; `Release` decrements, and exactly at zero closes every owned worker
and deletes the entry; hence k+1 `Retain`s from absence followed by k+1
`Release`s leave the map without the address. -/
theorem pool_refcount_spec (databases parallel : Nat) (addr : String) :
    (∀ p c, poolGet p addr = some c → 0 < c.refcnt →
      poolRetain databases parallel p addr =
        some (poolSet p addr { c with refcnt := c.refcnt + 1 })) ∧
    (∀ p, poolGet p addr = none →
      poolRetain databases parallel p addr =
        some (poolSet p addr ⟨1, databases * parallel⟩)) ∧
    (∀ p c, poolGet p addr = some c → c.refcnt ≤ 0 →
      poolRetain databases parallel p addr = none ∧ poolRelease p addr = none) ∧
    (∀ p c, poolGet p addr = some c → 1 < c.refcnt →
      poolRelease p addr =
        some (poolSet p addr { c with refcnt := c.refcnt - 1 }, 0)) ∧
    (∀ p c, poolGet p addr = some c → c.refcnt = 1 →
      poolRelease p addr = some (poolDel p addr, c.workers) ∧
      poolGet (poolDel p addr) addr = none) ∧
    (∀ p k, poolGet p addr = none →
      ∃ p2, retainN databases parallel addr (k + 1) p = some p2 ∧
        poolGet p2 addr = some ⟨(k : Int) + 1, databases * parallel⟩ ∧
        releaseN addr (k + 1) p2 = some (poolDel p2 addr) ∧
        poolGet (poolDel p2 addr) addr = none) := by
  refine ⟨?_, ?_, ?_, ?_, ?_, ?_⟩
  · intro p c hget hpos
    simp only [poolRetain, hget, if_neg (show ¬c.refcnt ≤ 0 by omega)]
  · intro p hget
    simp only [poolRetain, hget]
  · intro p c hget hneg
    constructor
    · simp only [poolRetain, hget, if_pos hneg]
    · simp only [poolRelease, hget, if_pos hneg]
  · intro p c hget hgt
    simp only [poolRelease, hget, if_neg (show ¬c.refcnt ≤ 0 by omega),
      if_pos (show c.refcnt - 1 ≠ 0 by omega)]
  · intro p c hget hone
    refine ⟨?_, poolGet_del_same p addr⟩
    simp only [poolRelease, hget, if_neg (show ¬c.refcnt ≤ 0 by omega),
      if_neg (show ¬(c.refcnt - 1 ≠ 0) by omega)]
  · intro p k hget
    simp only [retainN, poolRetain, hget]
    obtain ⟨p2, hr, hg⟩ := retainN_ok databases parallel addr k
      (poolSet p addr ⟨1, databases * parallel⟩) ⟨1, databases * parallel⟩
      (poolGet_set_same p addr _) (by norm_num)
    refine ⟨p2, hr, ?_, ?_, poolGet_del_same p2 addr⟩
    · rw [hg]
      have hc : (⟨1, databases * parallel⟩ : SConn).refcnt + (k : Int) = (k : Int) + 1 := by
        show (1 : Int) + (k : Int) = (k : Int) + 1
        ring
      rw [hc]
    · refine releaseN_ok addr k p2 ⟨1 + (k : Int), databases * parallel⟩ hg ?_
      show (1 : Int) + (k : Int) = (k : Int) + 1
      ring

/-- Witness for C8: two retains of a fresh address followed by two
releases remove the entry. -/
theorem pool_refcount_spec_witness :
    ∃ p2, retainN 2 3 "x" 2 [] = some p2 ∧
      poolGet p2 "x" = some ⟨((1 : Nat) : Int) + 1, 2 * 3⟩ ∧
      releaseN "x" 2 p2 = some (poolDel p2 "x") ∧
      poolGet (poolDel p2 "x") "x" = none :=
  (pool_refcount_spec 2 3 "x").2.2.2.2.2 [] 1 rfl

/-- C9: `reclaim` is idempotent — the first call frees the region,
subtracts the slice length from the global off-heap counter exactly once
and nils the fields; any number of further calls (explicit `FreeSlice` or
the finalizer) change nothing; pairing an allocation with a reclaim
restores the counter. -/
theorem cgo_reclaim_spec :
    (∀ st, st.s.ptr = true →
      reclaim st = ⟨⟨false, []⟩, st.offheapBytes - st.s.buf.length, st.frees + 1⟩) ∧
    (∀ st, reclaim (reclaim st) = reclaim st) ∧
    (∀ st k, iterReclaim (k + 1) st = reclaim st) ∧
    (∀ st, freeSlice (some (reclaim st).s) (reclaim st).offheapBytes (reclaim st).frees =
      (some (reclaim st).s, (reclaim st).offheapBytes, (reclaim st).frees)) ∧
    (∀ n maxOff off force sl off2 fr,
      newCGoSlice n maxOff off force = (some sl, off2) →
      reclaim ⟨sl, off2, fr⟩ = ⟨⟨false, []⟩, off, fr + 1⟩) := by
  have hptr : ∀ st : CgoState, (reclaim st).s.ptr = false := by
    intro st
    rw [reclaim]
    by_cases hp : st.s.ptr = false
    · rw [if_pos hp]
      exact hp
    · rw [if_neg hp]
  have hidem : ∀ st : CgoState, reclaim (reclaim st) = reclaim st := by
    intro st
    rw [reclaim, if_pos (hptr st)]
  have hiter : ∀ (k : Nat) (st : CgoState), iterReclaim (k + 1) st = reclaim st := by
    intro k
    induction k with
    | zero => intro st; rfl
    | succ k ih =>
      intro st
      rw [iterReclaim, ih (reclaim st), hidem]
  refine ⟨?_, hidem, fun st k => hiter k st, ?_, ?_⟩
  · intro st hp
    rw [reclaim, if_neg (by rw [hp]; simp)]
  · intro st
    rw [freeSlice, reclaim, if_pos (hptr st)]
  · intro n maxOff off force sl off2 fr hnew
    rw [newCGoSlice] at hnew
    by_cases hcap : (!force && off + n > maxOff) = true
    · rw [if_pos hcap] at hnew
      simp at hnew
    · rw [if_neg hcap] at hnew
      simp only [Prod.mk.injEq, Option.some.injEq] at hnew
      obtain ⟨hsl, hoff⟩ := hnew
      subst hsl
      subst hoff
      rw [reclaim]
      simp

/-- Witness for C9: freeing a 3-byte slice subtracts 3 from the counter
and a second reclaim is the identity. -/
theorem cgo_reclaim_spec_witness :
    reclaim ⟨⟨true, [0, 0, 0]⟩, 10, 0⟩ =
      ⟨⟨false, []⟩, (10 : Int) - ([0, 0, 0] : Bytes).length, 0 + 1⟩ ∧
    reclaim (reclaim ⟨⟨true, [0, 0, 0]⟩, 10, 0⟩) = reclaim ⟨⟨true, [0, 0, 0]⟩, 10, 0⟩ :=
  ⟨cgo_reclaim_spec.1 ⟨⟨true, [0, 0, 0]⟩, 10, 0⟩ rfl,
    cgo_reclaim_spec.2.1 ⟨⟨true, [0, 0, 0]⟩, 10, 0⟩⟩

end Codis
